import Mathlib

/-!
Verification of the HLS download engine of `m3u8me.py` (class `StreamDownloader`).

The definitions below are a shallow embedding of the engine's code:

* `locateSegment` embeds the segment-URL normalisation of
  `StreamDownloader.download_segment` (lines 567-573);
* `resolveSourceStep` embeds the manifest-resolution front of
  `StreamDownloader.run` (lines 784-793);
* `availableStreams` / `selectStream` embed the variant-selection block of
  `StreamDownloader.run` (lines 796-833);
* `dlSeg` embeds the retry loop of `StreamDownloader.download_segment`
  (lines 559-635), including its temp-file effects;
* `runJob` embeds the main body of `StreamDownloader.run` (lines 856-952):
  the sequential segment loop, the intermediate concatenation, the ffmpeg
  conversion step, the output verification, and the `try`/`except`/`finally`
  callback and cleanup structure;
* `fsAfter` / `assembleFromWorkspace` embed the by-ordinal workspace layout
  and the ordinal-ordered concatenation of `combine_segments` (lines 649-654).

Bytes are modelled as `List Nat`; external effects (HTTP responses, the
cancellation flag as observed at each checkpoint, the ffmpeg exit status and
the size of the produced file) are supplied by an environment record, so every
definition is an executable function of that environment.
-/

/-- Python strings are modelled as lists of characters, so that every
lexical operation of the source evaluates inside the kernel; a Lean string
literal `s` denotes the Python string `s.toList`. `breakOnSub sep s` splits
`s` at the first occurrence of the substring `sep`, returning the parts
before and after it, or `none` when `sep` does not occur. -/
def breakOnSub (sep : List Char) : List Char → Option (List Char × List Char)
  | [] => if sep.isEmpty then some ([], []) else none
  | c :: rest =>
    if sep.isPrefixOf (c :: rest) then some ([], (c :: rest).drop sep.length)
    else
      match breakOnSub sep rest with
      | some (pre, post) => some (c :: pre, post)
      | none => none

/-- Scheme and netloc of an absolute URL, modelling what
`urllib.parse.urlparse` returns for the `http(s)` URLs the downloader deals
with: the scheme is everything before `://`, the netloc everything between
`://` and the next `/`. -/
def parseSchemeNetloc (u : List Char) : List Char × List Char :=
  match breakOnSub "://".toList u with
  | some (scheme, rest) => (scheme, rest.takeWhile (fun c => c ≠ '/'))
  | none => (u, [])

/-- Segment-URL normalisation performed at the top of
`StreamDownloader.download_segment` (lines 567-573): a scheme-relative URI
gets an `https:` prefix, an URI starting with `http` passes through, and any
other URI is given a leading slash and appended to the scheme and netloc of
the parsed parent URL `self.url` (the host root, not the parent directory). -/
def locateSegment (segmentUrl parentUrl : List Char) : List Char :=
  if "//".toList.isPrefixOf segmentUrl then "https:".toList ++ segmentUrl
  else if "http".toList.isPrefixOf segmentUrl then segmentUrl
  else
    let seg := if "/".toList.isPrefixOf segmentUrl then segmentUrl else '/' :: segmentUrl
    let p := parseSchemeNetloc parentUrl
    p.1 ++ "://".toList ++ p.2 ++ seg

/-- Split a character list at every `/` (Python `s.split(chr(47))`). -/
def splitOnSlash : List Char → List (List Char)
  | [] => [[]]
  | c :: rest =>
    if c = '/' then [] :: splitOnSlash rest
    else
      match splitOnSlash rest with
      | [] => [[c]]
      | h :: t => (c :: h) :: t

/-- Join character lists with `/` between them. -/
def intercalateSlash : List (List Char) → List Char
  | [] => []
  | [x] => x
  | x :: y :: xs => x ++ '/' :: intercalateSlash (y :: xs)

/-- Directory component of a URL path: everything before the last `/`
(`os.path.dirname` on the URLs at hand). -/
def urlDirname (u : List Char) : List Char :=
  intercalateSlash (splitOnSlash u).dropLast

/-- The locator behaviour the specification describes (section 4.2): the same
two first rules, but a relative URI is joined against the directory component
of the base URL rather than the host root. Written from the spec wording, for
comparison with `locateSegment`. -/
def locateSpecDir (segmentUrl parentUrl : List Char) : List Char :=
  if "//".toList.isPrefixOf segmentUrl then "https:".toList ++ segmentUrl
  else if "http".toList.isPrefixOf segmentUrl then segmentUrl
  else urlDirname parentUrl ++ '/' :: segmentUrl

/-- Python `str.strip()`: remove leading and trailing whitespace. -/
def pyStrip (s : List Char) : List Char :=
  ((s.dropWhile Char.isWhitespace).reverse.dropWhile Char.isWhitespace).reverse

/-- The manifest-resolution front of `StreamDownloader.run` (lines 784-793):
the source string `self.url` is stripped of surrounding whitespace and of
trailing colons and handed directly to `m3u8.loads` as literal manifest text.
The result records the text given to the parser together with the list of
URLs fetched over HTTP during this step — which is empty: `run` never issues
a request for the source itself, whatever its form. -/
def resolveSourceStep (source : List Char) : List Char × List (List Char) :=
  (((pyStrip source).reverse.dropWhile (fun c => c = ':')).reverse, [])

/-- One `EXT-X-STREAM-INF` entry of a master playlist as the m3u8 library
presents it to `run`: URI, bandwidth, and the declared resolution if any. -/
structure Variant where
  uri : String
  bandwidth : Nat
  resolution : Option (Nat × Nat)
  deriving DecidableEq

/-- One entry of the `available_streams` list built at lines 798-809: the
declared height, the bandwidth and the URI (the code also keeps a
`WxH` display string and the playlist object, which carry no extra data). -/
structure HlsStream where
  height : Nat
  bandwidth : Nat
  uri : String
  deriving DecidableEq

/-- The `available_streams` list of `run` (lines 798-809): variants that
declare a resolution, projected to height, bandwidth and URI; variants
without a declared resolution are filtered out by the `hasattr` check. -/
def availableStreams (ps : List Variant) : List HlsStream :=
  ps.filterMap fun p => p.resolution.map fun wh => ⟨wh.2, p.bandwidth, p.uri⟩

/-- Descending comparison on the Python sort key `(height, bandwidth)`:
`keyLe a b` says `a`'s key is lexicographically at least `b`'s, so that a
`keyLe`-sorted list mirrors `available_streams.sort(key=..., reverse=True)`
at line 812. -/
def keyLe (a b : HlsStream) : Prop :=
  b.height < a.height ∨ (b.height = a.height ∧ b.bandwidth ≤ a.bandwidth)

instance : DecidableRel keyLe := fun a b => by
  unfold keyLe; infer_instance

instance : IsTotal HlsStream keyLe where
  total a b := by
    unfold keyLe
    rcases Nat.lt_trichotomy a.height b.height with h | h | h
    · exact Or.inr (Or.inl h)
    · rcases Nat.le_total b.bandwidth a.bandwidth with hb | hb
      · exact Or.inl (Or.inr ⟨h.symm, hb⟩)
      · exact Or.inr (Or.inr ⟨h, hb⟩)
    · exact Or.inl (Or.inl h)

instance : IsTrans HlsStream keyLe where
  trans a b c hab hbc := by
    unfold keyLe at *
    rcases hab with h₁ | ⟨h₁, h₁'⟩ <;> rcases hbc with h₂ | ⟨h₂, h₂'⟩
    · exact Or.inl (h₂.trans h₁)
    · exact Or.inl (h₂ ▸ h₁)
    · exact Or.inl (h₁ ▸ h₂)
    · exact Or.inr ⟨h₂.trans h₁, h₂'.trans h₁'⟩

/-- The sorted `available_streams` of line 812: descending by
`(height, bandwidth)`. Modelled with insertion sort; it agrees with Python's
stable sort except possibly on the relative order of entries whose keys are
exactly equal, which none of the theorems depend on. -/
def sortedStreams (ps : List Variant) : List HlsStream :=
  (availableStreams ps).insertionSort keyLe

/-- Quality selection of `run` (lines 814-833). For `best`, the first sorted
stream of height 1080 is taken, else the head of the sorted list when it is
nonempty; for `worst` the last element (`available_streams[-1]`); otherwise
the middle index. `none` corresponds to reaching line 833 with no selection,
where `run` raises `No suitable quality stream found` (for `worst`/`medium`
on an empty list, to the `IndexError` raised by the subscript, likewise a job
error). -/
def selectStream (quality : String) (ps : List Variant) : Option HlsStream :=
  let sorted := sortedStreams ps
  if quality = "best" then
    match sorted.find? (fun s => s.height == 1080) with
    | some s => some s
    | none => sorted.head?
  else if quality = "worst" then sorted.getLast?
  else sorted.get? (sorted.length / 2)

/-- Outcome of one HTTP attempt inside `download_segment`, as decided by the
environment: a network/HTTP-status error (`requests` exception or
`raise_for_status`), the cancellation flag observed mid-stream in the chunk
loop (lines 588-589), or a complete streamed body whose temp file has the
given size — `ok` means the HTTP status was 200. -/
inductive AttemptResult
  | httpError
  | cancelledMid
  | ok (size : Nat)
  deriving DecidableEq

/-- Workspace files touched by `download_segment`: the `<output>.temp`
partial file and the final renamed segment file. -/
structure SegFs where
  temp : Bool
  final : Bool
  deriving DecidableEq

/-- Observable result of one `download_segment` call: the returned boolean,
the number of HTTP attempts begun, the backoff sleeps performed (recorded as
the multiplier `attempt + 1`, the slept time being `0.5 * (attempt + 1)`
seconds, line 625), the workspace state on return and whether the index was
added to `completed_segments`. -/
structure SegRun where
  success : Bool
  attemptsMade : Nat
  sleeps : List Nat
  fs : SegFs
  completedMarked : Bool
  deriving DecidableEq

/-- One pass of the `for attempt in range(self.retry_count)` loop of
`download_segment` (lines 562-635). `fuel` is the number of loop iterations
left (`retry_count - a`), `a` the 0-based value of `attempt`. Every exit path
goes through the `finally` block (lines 628-633), which removes the temp
file; `attempt < retry_count - 1` (line 624) corresponds to `fuel ≠ 0` after
the current iteration is consumed. -/
def dlSegGo (running : Nat → Bool) (net : Nat → AttemptResult) :
    Nat → Nat → SegFs → List Nat → SegRun
  | 0, a, fs, sleeps => ⟨false, a, sleeps, fs, false⟩
  | fuel + 1, a, fs, sleeps =>
    if running a = false then
      ⟨false, a, sleeps, ⟨false, fs.final⟩, false⟩
    else
      match net a with
      | .httpError =>
        if fuel = 0 then ⟨false, a + 1, sleeps, ⟨false, fs.final⟩, false⟩
        else dlSegGo running net fuel (a + 1) ⟨false, fs.final⟩ (sleeps ++ [a + 1])
      | .cancelledMid => ⟨false, a + 1, sleeps, ⟨false, fs.final⟩, false⟩
      | .ok size =>
        if size < 100 then
          if fuel = 0 then ⟨false, a + 1, sleeps, ⟨false, fs.final⟩, false⟩
          else dlSegGo running net fuel (a + 1) ⟨false, fs.final⟩ (sleeps ++ [a + 1])
        else ⟨true, a + 1, sleeps, ⟨false, true⟩, true⟩

/-- `StreamDownloader.download_segment` (lines 559-635) for one segment:
`running a` is the value of `self.is_running` observed at the top of attempt
`a`, `net a` the outcome of attempt `a`'s HTTP request, `retryCount` the
`retry_attempts` setting. The workspace starts without temp or final file. -/
def dlSeg (running : Nat → Bool) (net : Nat → AttemptResult) (retryCount : Nat) : SegRun :=
  dlSegGo running net retryCount 0 ⟨false, false⟩ []

/-- An attempt outcome that the retry loop treats as a failed attempt: an
HTTP error, or a 200 response whose file is smaller than the 100-byte
integrity threshold (lines 603-606). -/
def failsAt (net : Nat → AttemptResult) (a : Nat) : Prop :=
  net a = .httpError ∨ ∃ s, net a = .ok s ∧ s < 100

/-- Terminal callback emitted by `run`: `download_complete` (line 942) or
`download_error` (line 946). -/
inductive CbTerminal
  | complete
  | error (msg : String)
  deriving DecidableEq

/-- External effects driving one `run` call, observed at its checkpoints:
whether `m3u8.loads` on the source text succeeds, whether the job reached the
media playlist through the master-variant branch (which binds the local
variables `selected_url` and `resolution`; a source that is already a media
playlist leaves them unbound), the value of `self.is_running` observed at the
checkpoint before segment `i` (line 864), the body returned by the HTTP GET
for segment `i` (`none` models a request exception or error status), the
ffmpeg exit status, and existence and size of the produced output file. -/
structure Env where
  parseOk : Bool
  masterResolved : Bool
  runningAt : Nat → Bool
  fetch : Nat → Option (List Nat)
  convertOk : Bool
  outputExists : Bool
  outputSize : Nat

/-- Accumulated observable state of the segment loop of `run`
(lines 863-896): the segment bodies appended to `segment_files` in loop
order, the ordinals for which an HTTP request was issued, the percentages
passed to `progress_updated` at line 888-893, and the message of the pending
exception if the loop aborted. -/
structure LoopOut where
  files : List (List Nat)
  fetched : List Nat
  progress : List Nat
  err : Option String
  deriving DecidableEq

/-- The `for i, segment in enumerate(playlist.segments)` loop of `run`
(lines 863-896), one ordinal per list entry. Before each segment the
cancellation flag is checked (line 864); a failed GET raises
`Failed to download segment i+1` (line 896); after a successful GET the body
is written and appended, and the progress emission at line 889-893 formats
the string `Downloading {resolution} segments...` — when the job did not go
through the master branch, the local `resolution` is unbound and this very
line raises `NameError` (modelled by the `masterResolved` flag; the real
interpreter message quotes the identifier: name resolution is not defined). -/
def dlGo (env : Env) (total : Nat) : List Nat → LoopOut → LoopOut
  | [], acc => acc
  | i :: rest, acc =>
    if env.runningAt i = false then
      { acc with err := some "Download cancelled by user" }
    else
      match env.fetch i with
      | none => { acc with err := some ("Failed to download segment " ++ toString (i + 1)) }
      | some b =>
        if env.masterResolved = false then
          { files := acc.files ++ [b], fetched := acc.fetched ++ [i],
            progress := acc.progress,
            err := some "NameError: name resolution is not defined" }
        else
          dlGo env total rest
            { files := acc.files ++ [b], fetched := acc.fetched ++ [i],
              progress := acc.progress ++ [min ((i * 80) / total) 79],
              err := none }

/-- Everything `run` makes observable: the terminal callbacks emitted in
order, whether the `finally` block removed the temp workspace (lines
947-952), the per-checkpoint data of the segment loop, and the bytes of the
`intermediate.ts` concatenation when the loop completed (lines 900-905). -/
structure RunResult where
  terminal : List CbTerminal
  cleaned : Bool
  progress : List Nat
  fetched : List Nat
  intermediate : Option (List Nat)
  deriving DecidableEq

/-- The body of `StreamDownloader.run` (lines 782-952) from the parse of the
source onwards, for a media playlist of `total` segments. The `try` block
either finishes with `download_complete` or raises; every raise is caught at
line 944 and reported through `download_error`; the `finally` block removes
the temp workspace on both paths. The progress percentages recorded are the
loop emissions (line 888-893, `min(int((i / total) * 80), 79)`, with exact
integer arithmetic in place of Python floats), then 80 before the
concatenation (line 899), 90 before the conversion (line 908) and 100 on
full success (line 941). -/
def runJob (env : Env) (total : Nat) : RunResult :=
  if env.parseOk = false then
    ⟨[.error "Failed to parse M3U8"], true, [], [], none⟩
  else if total = 0 then
    ⟨[.error "No segments found in playlist"], true, [], [], none⟩
  else
    let out := dlGo env total (List.range total) ⟨[], [], [], none⟩
    match out.err with
    | some e => ⟨[.error e], true, out.progress, out.fetched, none⟩
    | none =>
      let intermediate := out.files.flatten
      let prog := out.progress ++ [80, 90]
      if env.convertOk = false then
        ⟨[.error "Failed to convert video"], true, prog, out.fetched, some intermediate⟩
      else if env.outputExists = false ∨ env.outputSize < 1000 then
        ⟨[.error "Output file is invalid"], true, prog, out.fetched, some intermediate⟩
      else
        ⟨[.complete], true, prog ++ [100], out.fetched, some intermediate⟩

/-- Workspace contents after the segment files have been written in the
completion order `order`: segment `i`'s file holds `content i`, and the file
name `segment_{i:05d}.ts` is determined by the ordinal alone (line 867), so
the workspace is an association of ordinals to bodies in write order. -/
def fsAfter (order : List Nat) (content : Nat → List Nat) : List (Nat × List Nat) :=
  order.map fun i => (i, content i)

/-- The ordinal-ordered concatenation performed by `combine_segments`
(lines 649-654) and by the inline block of `run` (lines 902-905): read the
segment file of each ordinal `0, …, N-1` in that order and concatenate the
bytes; `none` if some ordinal's file is absent. -/
def assembleFromWorkspace (total : Nat) (fs : List (Nat × List Nat)) : Option (List Nat) :=
  ((List.range total).mapM fun i => fs.lookup i).map List.flatten

/-- A job whose source is already a media playlist (the master branch of
`run` was not taken, so the local `resolution` is unbound), whose single
segment downloads fine and whose conversion step would succeed. -/
def envDirectMedia : Env :=
  ⟨true, false, fun _ => true, fun i => some [i], true, true, 5000⟩

/-- A master-resolved job where every segment download and the conversion
succeed; segment `i` has body `[i, i]`. -/
def envMaster3 : Env :=
  ⟨true, true, fun _ => true, fun i => some [i, i], true, true, 5000⟩

/-- Segment bodies of `envMaster3`. -/
def content3 : Nat → List Nat := fun i => [i, i]

/-- A master-resolved job where everything succeeds; segment `i` has body
`[i]`. -/
def envOk1 : Env :=
  ⟨true, true, fun _ => true, fun i => some [i], true, true, 5000⟩

/-- A job whose cancellation flag is already cleared at the first segment
checkpoint. -/
def envCancelNow : Env :=
  ⟨true, true, fun _ => false, fun i => some [i], true, true, 5000⟩

/-- A job cancelled after the first segment: the flag reads true at
checkpoint 0 and false from checkpoint 1 on. -/
def envCancelAt1 : Env :=
  ⟨true, true, fun i => decide (i < 1), fun i => some [i], true, true, 5000⟩

/-- Attempt outcomes that fail twice over the network and then stream a
500-byte file. -/
def netW : Nat → AttemptResult :=
  fun a => if a < 2 then .httpError else .ok 500

/-- A master playlist whose two variants declare no resolution at all. -/
def cexVariants : List Variant :=
  [⟨"a.m3u8", 200, none⟩, ⟨"b.m3u8", 100, none⟩]

/-- Variants with heights 2160, 1080, 720 and 480 (the regression case of
the specification). -/
def demoA : List Variant :=
  [⟨"u2160.m3u8", 8000, some (3840, 2160)⟩, ⟨"u1080.m3u8", 5000, some (1920, 1080)⟩,
   ⟨"u720.m3u8", 3000, some (1280, 720)⟩, ⟨"u480.m3u8", 1000, some (854, 480)⟩]

/-- Variants with heights 720 and 480 and no 1080p rendition. -/
def demoB : List Variant :=
  [⟨"u720.m3u8", 3000, some (1280, 720)⟩, ⟨"u480.m3u8", 1000, some (854, 480)⟩]

/-! ### Helper lemmas -/

/-- Looking up an ordinal that occurs in the write order finds its content:
file names are keyed by ordinal, so later writes of other ordinals do not
disturb it. -/
theorem lookup_fsAfter {content : Nat → List Nat} :
    ∀ {order : List Nat} {j : Nat}, j ∈ order →
      (fsAfter order content).lookup j = some (content j) := by
  intro order
  induction order with
  | nil => intro j hj; cases hj
  | cons i rest ih =>
    intro j hj
    rcases List.mem_cons.mp hj with h | h
    · subst h
      simp [fsAfter, List.lookup]
    · by_cases hji : j = i
      · subst hji; simp [fsAfter, List.lookup]
      · have hbe : (j == i) = false := beq_eq_false_iff_ne.mpr hji
        simpa [fsAfter, List.lookup, hbe] using ih h

/-- A `mapM` over `Option` whose every step succeeds is the `some` of the
corresponding `map`. -/
theorem mapM_eq_some_map {α β : Type} (f : α → Option β) (g : α → β) :
    ∀ l : List α, (∀ a ∈ l, f a = some (g a)) → l.mapM f = some (l.map g) := by
  intro l
  induction l with
  | nil => intro _; rfl
  | cons a l ih =>
    intro h
    rw [List.mapM_cons, h a (List.mem_cons_self a l), ih (fun b hb => h b (List.mem_cons_of_mem a hb))]
    rfl

/-- Shifting the base of the backoff-multiplier list by one attempt. -/
theorem range_map_shift (a j : Nat) :
    (a + 1) :: (List.range j).map (fun k => a + 1 + k + 1) =
      (List.range (j + 1)).map (fun k => a + k + 1) := by
  have h2 : ((fun k => a + k + 1) ∘ Nat.succ) = fun k => a + 1 + k + 1 := by
    funext k; simp [Function.comp]; omega
  rw [List.range_succ_eq_map, List.map_cons, List.map_map, h2]

/-- The retry loop begins at most `fuel` further HTTP attempts. -/
theorem dlSegGo_attempts_le (running : Nat → Bool) (net : Nat → AttemptResult) :
    ∀ fuel a fs sleeps, (dlSegGo running net fuel a fs sleeps).attemptsMade ≤ a + fuel := by
  intro fuel
  induction fuel with
  | zero => intro a fs sleeps; simp [dlSegGo]
  | succ f ih =>
    intro a fs sleeps
    simp only [dlSegGo]
    by_cases hr : running a = false
    · simp [hr]
    · simp only [hr, if_false]
      cases hnet : net a with
      | httpError =>
        by_cases hf : f = 0
        · simp [hf]
        · simp only [hf, ite_false]
          exact le_trans (ih (a + 1) ⟨false, fs.final⟩ (sleeps ++ [a + 1])) (by omega)
      | cancelledMid => simp
      | ok size =>
        by_cases hs : size < 100
        · by_cases hf : f = 0
          · simp [hs, hf]
          · simp only [hs, ite_true, hf, ite_false]
            exact le_trans (ih (a + 1) ⟨false, fs.final⟩ (sleeps ++ [a + 1])) (by omega)
        · simp [hs]

/-- If the first `j` attempts from `a` on fail and attempt `a + j` streams a
file of at least 100 bytes, the loop succeeds at attempt `a + j`, sleeping
the multipliers `a+1, …, a+j` in between. -/
theorem dlSegGo_success (running : Nat → Bool) (net : Nat → AttemptResult)
    (hrun : ∀ i, running i = true) :
    ∀ j fuel a fs sleeps, j < fuel →
      (∀ k, k < j → failsAt net (a + k)) →
      (∃ s, net (a + j) = .ok s ∧ 100 ≤ s) →
      dlSegGo running net fuel a fs sleeps =
        ⟨true, a + j + 1, sleeps ++ (List.range j).map (fun k => a + k + 1), ⟨false, true⟩, true⟩ := by
  intro j
  induction j with
  | zero =>
    intro fuel a fs sleeps hj _ hok
    obtain ⟨f, rfl⟩ : ∃ f, fuel = f + 1 := ⟨fuel - 1, by omega⟩
    obtain ⟨s, hs, hs100⟩ := hok
    simp only [Nat.add_zero] at hs
    simp [dlSegGo, hrun a, hs, Nat.not_lt.mpr hs100]
  | succ j ih =>
    intro fuel a fs sleeps hj hfail hok
    obtain ⟨f, rfl⟩ : ∃ f, fuel = f + 1 := ⟨fuel - 1, by omega⟩
    have hf : f ≠ 0 := by omega
    have hstep : ∀ k, k < j → failsAt net (a + 1 + k) := by
      intro k hk
      have := hfail (k + 1) (by omega)
      simpa [Nat.add_assoc, Nat.add_comm 1 k] using this
    have hok' : ∃ s, net (a + 1 + j) = .ok s ∧ 100 ≤ s := by
      obtain ⟨s, hs, h100⟩ := hok
      exact ⟨s, by simpa [Nat.add_assoc, Nat.add_comm 1 j] using hs, h100⟩
    have hrec := ih f (a + 1) (⟨false, fs.final⟩ : SegFs) (sleeps ++ [a + 1]) (by omega) hstep hok'
    rcases hfail 0 (by omega) with herr | ⟨s, hs, hs100⟩ <;>
      simp only [Nat.add_zero] at *
    · simp only [dlSegGo, hrun a, Bool.true_eq_false, if_false, herr, hf, ite_false]
      rw [hrec]
      simp only [List.append_assoc, List.singleton_append, range_map_shift, SegRun.mk.injEq]
      exact ⟨trivial, by omega, trivial, trivial, trivial⟩
    · simp only [dlSegGo, hrun a, Bool.true_eq_false, if_false, hs, hs100, ite_true, hf, ite_false]
      rw [hrec]
      simp only [List.append_assoc, List.singleton_append, range_map_shift, SegRun.mk.injEq]
      exact ⟨trivial, by omega, trivial, trivial, trivial⟩

/-- If every attempt up to the remaining budget fails (network error or
sub-100-byte file), the loop exhausts the budget, sleeping after every
attempt but the last, and returns failure with the temp file removed. -/
theorem dlSegGo_allfail (running : Nat → Bool) (net : Nat → AttemptResult)
    (hrun : ∀ i, running i = true) :
    ∀ fuel a ffin sleeps,
      (∀ k, k < fuel → failsAt net (a + k)) →
      dlSegGo running net fuel a ⟨false, ffin⟩ sleeps =
        ⟨false, a + fuel, sleeps ++ (List.range (fuel - 1)).map (fun k => a + k + 1),
          ⟨false, ffin⟩, false⟩ := by
  intro fuel
  induction fuel with
  | zero => intro a ffin sleeps _; simp [dlSegGo]
  | succ f ih =>
    intro a ffin sleeps hfail
    have hfa := hfail 0 (by omega)
    simp only [Nat.add_zero] at hfa
    by_cases hf : f = 0
    · subst hf
      rcases hfa with herr | ⟨s, hs, hs100⟩
      · simp [dlSegGo, hrun a, herr]
      · simp [dlSegGo, hrun a, hs, hs100]
    · have hrec := ih (a + 1) ffin (sleeps ++ [a + 1]) (fun k hk => by
        simpa [Nat.add_assoc, Nat.add_comm 1 k] using hfail (k + 1) (by omega))
      rcases hfa with herr | ⟨s, hs, hs100⟩
      · simp only [dlSegGo, hrun a, Bool.true_eq_false, if_false, herr, hf, ite_false]
        rw [hrec]
        obtain ⟨g, rfl⟩ : ∃ g, f = g + 1 := ⟨f - 1, by omega⟩
        simp only [Nat.add_sub_cancel, List.append_assoc, List.singleton_append,
          range_map_shift, SegRun.mk.injEq]
        exact ⟨trivial, by omega, trivial, trivial, trivial⟩
      · simp only [dlSegGo, hrun a, Bool.true_eq_false, if_false, hs, hs100, ite_true,
          hf, ite_false]
        rw [hrec]
        obtain ⟨g, rfl⟩ : ∃ g, f = g + 1 := ⟨f - 1, by omega⟩
        simp only [Nat.add_sub_cancel, List.append_assoc, List.singleton_append,
          range_map_shift, SegRun.mk.injEq]
        exact ⟨trivial, by omega, trivial, trivial, trivial⟩

/-- The retry loop never leaves the temp file behind, and the final segment
file exists, and the index is marked completed, exactly when the call
returned success. -/
theorem dlSegGo_fs (running : Nat → Bool) (net : Nat → AttemptResult) :
    ∀ fuel a sleeps,
      (dlSegGo running net fuel a ⟨false, false⟩ sleeps).fs.temp = false ∧
      (dlSegGo running net fuel a ⟨false, false⟩ sleeps).fs.final
        = (dlSegGo running net fuel a ⟨false, false⟩ sleeps).success ∧
      (dlSegGo running net fuel a ⟨false, false⟩ sleeps).completedMarked
        = (dlSegGo running net fuel a ⟨false, false⟩ sleeps).success := by
  intro fuel
  induction fuel with
  | zero => intro a sleeps; simp [dlSegGo]
  | succ f ih =>
    intro a sleeps
    simp only [dlSegGo]
    by_cases hr : running a = false
    · simp [hr]
    · simp only [hr, if_false]
      cases hnet : net a with
      | httpError =>
        by_cases hf : f = 0
        · simp [hf]
        · simpa [hf] using ih (a + 1) (sleeps ++ [a + 1])
      | cancelledMid => simp
      | ok size =>
        by_cases hs : size < 100
        · by_cases hf : f = 0
          · simp [hs, hf]
          · simpa [hs, hf] using ih (a + 1) (sleeps ++ [a + 1])
        · simp [hs]

/-- Running the segment loop over indices that are all fetchable with the
flag up, from a state with no pending error, appends every body, ordinal and
progress value in loop order and ends without error. -/
theorem dlGo_allok (env : Env) (total : Nat) (content : Nat → List Nat)
    (hm : env.masterResolved = true) :
    ∀ (l : List Nat) (files : List (List Nat)) (fetched progress : List Nat),
      (∀ i ∈ l, env.runningAt i = true ∧ env.fetch i = some (content i)) →
      dlGo env total l ⟨files, fetched, progress, none⟩ =
        ⟨files ++ l.map content, fetched ++ l,
          progress ++ l.map (fun i => min ((i * 80) / total) 79), none⟩ := by
  intro l
  induction l with
  | nil => intro files fetched progress _; simp [dlGo]
  | cons i rest ih =>
    intro files fetched progress h
    obtain ⟨hr, hfe⟩ := h i (List.mem_cons_self i rest)
    have step : dlGo env total (i :: rest) ⟨files, fetched, progress, none⟩
        = dlGo env total rest
            ⟨files ++ [content i], fetched ++ [i],
              progress ++ [min ((i * 80) / total) 79], none⟩ := by
      simp [dlGo, hr, hfe, hm]
    rw [step, ih _ _ _ (fun j hj => h j (List.mem_cons_of_mem i hj))]
    simp

/-- If the indices before `j` all succeed with the flag up but the flag is
down at `j`'s checkpoint, the loop stops at `j` with the cancellation
message, having fetched exactly the earlier indices. -/
theorem dlGo_upto_cancel (env : Env) (total : Nat) (content : Nat → List Nat)
    (hm : env.masterResolved = true) (j : Nat) (hj : env.runningAt j = false) :
    ∀ (l1 l2 : List Nat) (files : List (List Nat)) (fetched progress : List Nat),
      (∀ i ∈ l1, env.runningAt i = true ∧ env.fetch i = some (content i)) →
      dlGo env total (l1 ++ j :: l2) ⟨files, fetched, progress, none⟩ =
        ⟨files ++ l1.map content, fetched ++ l1,
          progress ++ l1.map (fun i => min ((i * 80) / total) 79),
          some "Download cancelled by user"⟩ := by
  intro l1
  induction l1 with
  | nil =>
    intro l2 files fetched progress _
    simp [dlGo, hj]
  | cons i rest ih =>
    intro l2 files fetched progress h
    obtain ⟨hr, hfe⟩ := h i (List.mem_cons_self i rest)
    have step : dlGo env total ((i :: rest) ++ j :: l2) ⟨files, fetched, progress, none⟩
        = dlGo env total (rest ++ j :: l2)
            ⟨files ++ [content i], fetched ++ [i],
              progress ++ [min ((i * 80) / total) 79], none⟩ := by
      simp [dlGo, hr, hfe, hm]
    rw [step, ih _ _ _ _ (fun k hk => h k (List.mem_cons_of_mem i hk))]
    simp

/-- A variant with a declared resolution contributes the corresponding
stream entry to `available_streams`. -/
theorem mem_availableStreams (ps : List Variant) (v : Variant) (w h : Nat)
    (hv : v ∈ ps) (hres : v.resolution = some (w, h)) :
    (⟨h, v.bandwidth, v.uri⟩ : HlsStream) ∈ availableStreams ps := by
  unfold availableStreams
  exact List.mem_filterMap.mpr ⟨v, hv, by rw [hres]; rfl⟩

/-! ### Claim theorems -/

/-- Claim C3 (status: the code contradicts the claimed dispatch). The
resolution step of `run` hands the source string to the m3u8 parser as
literal text in both cases and performs no HTTP fetch of the source: for a
URL-form source the parser receives the URL string itself and the list of
URLs requested during resolution is empty, where the claim (and the URL
input accepted by the application UI) requires the URL's content to be
fetched and parsed. -/
theorem C3_source_parsed_not_fetched :
    resolveSourceStep "http://example.com/video.m3u8".toList
      = ("http://example.com/video.m3u8".toList, []) ∧
    resolveSourceStep "#EXTM3U".toList = ("#EXTM3U".toList, []) := by
  constructor <;> decide

/-- Claim C4, counterexample: for the relative URI `seg1.ts` against the
manifest URL `https://example.com/path/playlist.m3u8`, `download_segment`
builds the host-root join `https://example.com/seg1.ts`, not the
directory join `https://example.com/path/seg1.ts` that the claim
describes. -/
theorem C4_counterexample :
    locateSegment "seg1.ts".toList "https://example.com/path/playlist.m3u8".toList
      = "https://example.com/seg1.ts".toList ∧
    locateSpecDir "seg1.ts".toList "https://example.com/path/playlist.m3u8".toList
      = "https://example.com/path/seg1.ts".toList ∧
    "https://example.com/seg1.ts".toList ≠ "https://example.com/path/seg1.ts".toList := by
  refine ⟨by decide, by decide, by decide⟩

/-- Claim C4 (amended): the locator of `download_segment` maps a
scheme-relative URI to the same URI prefixed with `https:`, passes an
absolute `http(s)` URI through unchanged, and joins any other URI — after
forcing a leading slash — against the scheme and host (netloc) of the
manifest URL, i.e. against the host root rather than against the directory
component. -/
theorem C4_locator_rules (u base : List Char) :
    ("//".toList.isPrefixOf u = true → locateSegment u base = "https:".toList ++ u) ∧
    ("//".toList.isPrefixOf u = false → "http".toList.isPrefixOf u = true →
      locateSegment u base = u) ∧
    ("//".toList.isPrefixOf u = false → "http".toList.isPrefixOf u = false →
      locateSegment u base =
        (parseSchemeNetloc base).1 ++ "://".toList ++ (parseSchemeNetloc base).2 ++
          (if "/".toList.isPrefixOf u then u else '/' :: u)) := by
  refine ⟨fun h1 => ?_, fun h1 h2 => ?_, fun h1 h2 => ?_⟩
  · have h1' : ['/', '/'] <+: u := by simpa using h1
    simp [locateSegment, h1']
  · have h1b : ['/', '/'].isPrefixOf u = false := by simpa using h1
    have h1' : ¬ ['/', '/'] <+: u := by simp [← List.isPrefixOf_iff_prefix, h1b]
    have h2' : ['h', 't', 't', 'p'] <+: u := by simpa using h2
    simp [locateSegment, h1', h2']
  · have h1b : ['/', '/'].isPrefixOf u = false := by simpa using h1
    have h1' : ¬ ['/', '/'] <+: u := by simp [← List.isPrefixOf_iff_prefix, h1b]
    have h2b : ['h', 't', 't', 'p'].isPrefixOf u = false := by simpa using h2
    have h2' : ¬ ['h', 't', 't', 'p'] <+: u := by simp [← List.isPrefixOf_iff_prefix, h2b]
    simp [locateSegment, h1', h2']

/-- Witness for `C4_locator_rules` at the three URI shapes. -/
theorem C4_locator_rules_witness :
    locateSegment "//cdn.example.com/a.ts".toList "https://example.com/path/playlist.m3u8".toList
      = "https://cdn.example.com/a.ts".toList ∧
    locateSegment "http://other.example.com/b.ts".toList "https://example.com/path/playlist.m3u8".toList
      = "http://other.example.com/b.ts".toList ∧
    locateSegment "seg2.ts".toList "https://example.com/path/playlist.m3u8".toList
      = "https://example.com/seg2.ts".toList := by
  refine ⟨?_, ?_, ?_⟩
  · exact ((C4_locator_rules "//cdn.example.com/a.ts".toList
      "https://example.com/path/playlist.m3u8".toList).1 (by decide)).trans (by decide)
  · exact (C4_locator_rules "http://other.example.com/b.ts".toList
      "https://example.com/path/playlist.m3u8".toList).2.1 (by decide) (by decide)
  · exact ((C4_locator_rules "seg2.ts".toList
      "https://example.com/path/playlist.m3u8".toList).2.2 (by decide) (by decide)).trans (by decide)

/-- Claim C5 (confirmed): `download_segment` makes at most `retryCount`
attempts; when the flag stays up, an oracle whose first `a` attempts fail
and whose attempt `a` (0-based, `a < retryCount`) streams a file of at
least 100 bytes yields success after exactly `a + 1` attempts with the
linear backoff multipliers `1, …, a` slept in between (each multiplied by
the 0.5-second base), and an oracle whose `retryCount` first attempts all
fail yields failure after exactly `retryCount` attempts. -/
theorem C5_retry_policy (retryCount : Nat) (running : Nat → Bool) (net : Nat → AttemptResult) :
    (dlSeg running net retryCount).attemptsMade ≤ retryCount ∧
    ((∀ i, running i = true) →
      ∀ a, a < retryCount → (∀ k, k < a → failsAt net k) →
        (∃ s, net a = .ok s ∧ 100 ≤ s) →
        dlSeg running net retryCount =
          ⟨true, a + 1, (List.range a).map (fun k => k + 1), ⟨false, true⟩, true⟩) ∧
    ((∀ i, running i = true) → (∀ a, a < retryCount → failsAt net a) →
      dlSeg running net retryCount =
        ⟨false, retryCount, (List.range (retryCount - 1)).map (fun k => k + 1),
          ⟨false, false⟩, false⟩) := by
  refine ⟨?_, ?_, ?_⟩
  · simpa [dlSeg] using dlSegGo_attempts_le running net retryCount 0 ⟨false, false⟩ []
  · intro hrun a ha hfail hok
    have h := dlSegGo_success running net hrun a retryCount 0 ⟨false, false⟩ [] ha
      (fun k hk => by simpa using hfail k hk) (by simpa using hok)
    simpa [dlSeg] using h
  · intro hrun hfail
    have h := dlSegGo_allfail running net hrun retryCount 0 false []
      (fun k hk => by simpa using hfail k hk)
    simpa [dlSeg] using h

/-- Witness for `C5_retry_policy`: with a budget of 3, two network failures
followed by a 500-byte download succeed on the third attempt after backoff
multipliers 1 and 2. -/
theorem C5_retry_policy_witness :
    dlSeg (fun _ => true) netW 3 = ⟨true, 3, [1, 2], ⟨false, true⟩, true⟩ := by
  have h := (C5_retry_policy 3 (fun _ => true) netW).2.1 (fun _ => rfl) 2 (by omega)
    (fun k hk => Or.inl (by simp [netW, hk]))
    ⟨500, by norm_num [netW], by norm_num⟩
  rw [h]
  decide

/-- Claim C6 (confirmed): if every attempt returns HTTP 200 but streams
fewer than 100 bytes, every attempt is treated as failed: the call returns
failure, the segment is never added to `completed_segments`, and the whole
retry budget is consumed. -/
theorem C6_undersized_file_fails (retryCount : Nat) (running : Nat → Bool)
    (net : Nat → AttemptResult) (hrun : ∀ i, running i = true)
    (hsmall : ∀ a, a < retryCount → ∃ s, net a = .ok s ∧ s < 100) :
    (dlSeg running net retryCount).success = false ∧
    (dlSeg running net retryCount).completedMarked = false ∧
    (dlSeg running net retryCount).attemptsMade = retryCount := by
  have h := dlSegGo_allfail running net hrun retryCount 0 false []
    (fun k hk => Or.inr (by simpa using hsmall k hk))
  refine ⟨?_, ?_, ?_⟩ <;> simp [dlSeg, h]

/-- Witness for `C6_undersized_file_fails`: two attempts that each produce a
50-byte file with status 200 exhaust a budget of 2 and never complete the
segment. -/
theorem C6_undersized_file_fails_witness :
    (dlSeg (fun _ => true) (fun _ => AttemptResult.ok 50) 2).success = false ∧
    (dlSeg (fun _ => true) (fun _ => AttemptResult.ok 50) 2).completedMarked = false ∧
    (dlSeg (fun _ => true) (fun _ => AttemptResult.ok 50) 2).attemptsMade = 2 :=
  C6_undersized_file_fails 2 _ _ (fun _ => rfl) (fun _ _ => ⟨50, rfl, by norm_num⟩)

/-- Claim C10 (confirmed): whatever the per-attempt outcomes and however
the cancellation flag behaves, `download_segment` returns with the `.temp`
partial file removed, and the renamed final segment file exists exactly
when the call returned success. -/
theorem C10_no_temp_residue (running : Nat → Bool) (net : Nat → AttemptResult)
    (retryCount : Nat) :
    (dlSeg running net retryCount).fs.temp = false ∧
    (dlSeg running net retryCount).fs.final = (dlSeg running net retryCount).success := by
  have h := dlSegGo_fs running net retryCount 0 []
  exact ⟨h.1, h.2.1⟩

/-- Claim C2, counterexample: with two variants that declare no resolution
at all (bandwidths 200 and 100), the `best` selection of `run` picks
nothing — `available_streams` is empty, so line 833 raises
`No suitable quality stream found` — instead of returning the variant with
the greatest bandwidth as the claim states. -/
theorem C2_counterexample :
    selectStream "best" cexVariants = none ∧ cexVariants ≠ [] := by
  constructor
  · decide
  · decide

/-- Claim C2 (amended): with quality `best`, if any variant declares a
resolution of height 1080 the selection returns a stream of height 1080;
otherwise, if some variant declares a resolution, it returns a declared
stream of maximal height; and if no variant declares a resolution at all,
no stream is selected (the job fails with `No suitable quality stream
found`) rather than the greatest-bandwidth variant being returned. -/
theorem C2_best_quality (ps : List Variant) :
    ((∃ v ∈ ps, ∃ w, v.resolution = some (w, 1080)) →
      ∃ s, selectStream "best" ps = some s ∧ s.height = 1080 ∧
        s ∈ availableStreams ps) ∧
    ((availableStreams ps ≠ [] ∧ ∀ t ∈ availableStreams ps, t.height ≠ 1080) →
      ∃ s, selectStream "best" ps = some s ∧ s ∈ availableStreams ps ∧
        ∀ t ∈ availableStreams ps, t.height ≤ s.height) ∧
    ((∀ v ∈ ps, v.resolution = none) → selectStream "best" ps = none) := by
  have hperm : (sortedStreams ps).Perm (availableStreams ps) :=
    List.perm_insertionSort keyLe (availableStreams ps)
  refine ⟨?_, ?_, ?_⟩
  · rintro ⟨v, hv, w, hres⟩
    have hmem : (⟨1080, v.bandwidth, v.uri⟩ : HlsStream) ∈ availableStreams ps :=
      mem_availableStreams ps v w 1080 hv hres
    have hmem' : (⟨1080, v.bandwidth, v.uri⟩ : HlsStream) ∈ sortedStreams ps :=
      hperm.mem_iff.mpr hmem
    have hsome : (List.find? (fun s => s.height == 1080) (sortedStreams ps)).isSome :=
      List.find?_isSome.mpr ⟨_, hmem', by simp⟩
    obtain ⟨s, hs⟩ := Option.isSome_iff_exists.mp hsome
    refine ⟨s, ?_, ?_, ?_⟩
    · simp [selectStream, hs]
    · simpa using List.find?_some hs
    · exact hperm.mem_iff.mp (List.mem_of_find?_eq_some hs)
  · rintro ⟨hne, hno⟩
    have hnone : List.find? (fun s => s.height == 1080) (sortedStreams ps) = none :=
      List.find?_eq_none.mpr (fun x hx => by simpa using hno x (hperm.mem_iff.mp hx))
    have hsne : sortedStreams ps ≠ [] := by
      intro h0
      have hpn : ([] : List HlsStream).Perm (availableStreams ps) := h0 ▸ hperm
      exact hne (List.Perm.eq_nil hpn.symm)
    obtain ⟨x, xs, hcons⟩ := List.exists_cons_of_ne_nil hsne
    have hsorted : List.Sorted keyLe (sortedStreams ps) :=
      List.sorted_insertionSort keyLe (availableStreams ps)
    have hnone' : List.find? (fun s => s.height == 1080) (x :: xs) = none :=
      hcons ▸ hnone
    refine ⟨x, ?_, ?_, ?_⟩
    · simp [selectStream, hcons, hnone']
    · exact hperm.mem_iff.mp (hcons ▸ List.mem_cons_self x xs)
    · intro t ht
      have ht' : t ∈ sortedStreams ps := hperm.mem_iff.mpr ht
      rw [hcons] at ht' hsorted
      rcases List.mem_cons.mp ht' with rfl | htl
      · exact le_refl _
      · rcases (List.sorted_cons.mp hsorted).1 t htl with hlt | ⟨heq, _⟩
        · exact le_of_lt hlt
        · exact le_of_eq heq
  · intro hall
    have havail : availableStreams ps = [] := by
      unfold availableStreams
      rw [List.filterMap_eq_nil_iff]
      intro v hv
      rw [hall v hv]
      rfl
    have hsorted0 : sortedStreams ps = [] := by rw [sortedStreams, havail]; rfl
    simp [selectStream, hsorted0]

/-- Witness for `C2_best_quality` at the specification's regression case
(heights 2160/1080/720/480 select 1080), a playlist without 1080p
(maximum height selected), and a playlist with no declared resolutions
(nothing selected). -/
theorem C2_best_quality_witness :
    (∃ s, selectStream "best" demoA = some s ∧ s.height = 1080 ∧
      s ∈ availableStreams demoA) ∧
    (∃ s, selectStream "best" demoB = some s ∧ s ∈ availableStreams demoB ∧
      ∀ t ∈ availableStreams demoB, t.height ≤ s.height) ∧
    selectStream "best" cexVariants = none := by
  refine ⟨(C2_best_quality demoA).1 ?_, (C2_best_quality demoB).2.1 ?_,
    (C2_best_quality cexVariants).2.2 ?_⟩
  · exact ⟨⟨"u1080.m3u8", 5000, some (1920, 1080)⟩, by decide, 1920, rfl⟩
  · exact ⟨by decide, by decide⟩
  · decide

/-- Claim C9 (confirmed): whatever the environment does — parse failure,
empty playlist, segment failure, cancellation, conversion failure, invalid
output or full success — `run` emits exactly one terminal callback
(`download_complete` or `download_error`) and the `finally` block removes
the temp workspace on that same exit path. -/
theorem C9_one_terminal_callback (env : Env) (total : Nat) :
    (runJob env total).terminal.length = 1 ∧ (runJob env total).cleaned = true := by
  unfold runJob
  by_cases hp : env.parseOk = false
  · simp [hp]
  · by_cases ht : total = 0
    · simp [hp, ht]
    · simp only [hp, ht, if_false]
      cases herr : (dlGo env total (List.range total) ⟨[], [], [], none⟩).err with
      | some e => simp [herr]
      | none =>
        by_cases hc : env.convertOk = false
        · simp [herr, hc]
        · by_cases ho : env.outputExists = false ∨ env.outputSize < 1000
          · simp [herr, hc, ho]
          · simp [herr, hc, ho]

/-- Claim C8, counterexample: a fully successful one-segment job emits the
progress sequence 0, 80, 90, 100; the value emitted on the first (and only)
successful segment is 0, not `completedCount / totalSegments * 90 = 90` as
the claim states — the 90-scale formula exists only in the never-called
`download_segment` helper, while `run` uses an 80-scale capped at 79. -/
theorem C8_counterexample :
    (runJob envOk1 1).progress = [0, 80, 90, 100] ∧
    1 * 90 / 1 = 90 ∧ (0 : Nat) ≠ 90 := by
  refine ⟨by decide, by norm_num, by norm_num⟩

/-- Claim C8 (amended): on a fully successful master-resolved job, the
progress emitted while processing segment `i` (0-based) is
`min(i * 80 / total, 79)`, so the download phase occupies 0-79; 80 is
emitted when concatenation starts, 90 when conversion starts, and 100 on
completion (Python computes `int((i / total) * 80)` in floating point,
which agrees with the integer division for these magnitudes). -/
theorem C8_progress_scale (env : Env) (total : Nat) (content : Nat → List Nat)
    (hp : env.parseOk = true) (hm : env.masterResolved = true) (h0 : total ≠ 0)
    (hrun : ∀ i, env.runningAt i = true) (hf : ∀ i, env.fetch i = some (content i))
    (hc : env.convertOk = true) (he : env.outputExists = true)
    (hs : 1000 ≤ env.outputSize) :
    (runJob env total).progress =
      (List.range total).map (fun i => min ((i * 80) / total) 79) ++ [80, 90, 100] := by
  have hloop := dlGo_allok env total content hm (List.range total) [] [] []
    (fun i _ => ⟨hrun i, hf i⟩)
  simp [runJob, hp, h0, hloop, hc, he, Nat.not_lt.mpr hs]

/-- Witness for `C8_progress_scale`: a three-segment job emits 0, 26, 53
during download, then 80, 90 and 100. -/
theorem C8_progress_scale_witness :
    (runJob envMaster3 3).progress = [0, 26, 53, 80, 90, 100] := by
  have h := C8_progress_scale envMaster3 3 content3 rfl rfl (by omega)
    (fun i => rfl) (fun i => rfl) rfl rfl (by decide)
  rw [h]
  decide

/-- Claim C7, counterexample: a job whose cancellation flag is already down
at the first checkpoint ends with the `download_error` callback carrying
the message `Download cancelled by user` — cancellation is reported through
the error callback, and `run` has no distinct cancelled outcome (its only
signals are `progress_updated`, `download_complete` and `download_error`),
contradicting the claim. -/
theorem C7_counterexample :
    (runJob envCancelNow 1).terminal
      = [CbTerminal.error "Download cancelled by user"] := by
  decide

/-- Claim C7 (amended): a job whose flag is cleared before checkpoint `k`
(with the earlier segments succeeding) stops at that checkpoint without
fetching any further segment — no retry is attempted — and terminates
through the `download_error` callback with the message
`Download cancelled by user`, the workspace being removed; there is no
distinct cancelled outcome. -/
theorem C7_cancel_reported_as_error (env : Env) (total k : Nat) (content : Nat → List Nat)
    (hp : env.parseOk = true) (hm : env.masterResolved = true) (hk : k < total)
    (hrun : ∀ i, env.runningAt i = decide (i < k))
    (hf : ∀ i, i < k → env.fetch i = some (content i)) :
    (runJob env total).terminal = [CbTerminal.error "Download cancelled by user"] ∧
    (runJob env total).fetched = List.range k ∧
    (runJob env total).cleaned = true := by
  obtain ⟨m, rfl⟩ : ∃ m, total = k + (m + 1) := ⟨total - k - 1, by omega⟩
  have h0 : k + (m + 1) ≠ 0 := by omega
  have hsplit : List.range (k + (m + 1)) =
      List.range k ++ k :: ((List.range m).map (fun x => k + (x + 1))) := by
    rw [List.range_add, List.range_succ_eq_map]
    simp [List.map_cons, List.map_map, Function.comp, Nat.succ_eq_add_one]
  have hcancel := dlGo_upto_cancel env (k + (m + 1)) content hm k
    (by simp [hrun k]) (List.range k) ((List.range m).map (fun x => k + (x + 1)))
    [] [] []
    (fun i hi => ⟨by simp [hrun i, List.mem_range.mp hi],
      hf i (List.mem_range.mp hi)⟩)
  simp [runJob, hp, h0, hsplit, hcancel]

/-- Witness for `C7_cancel_reported_as_error`: cancelling a three-segment
job after its first segment fetches only segment 0 and ends in the
cancellation error message. -/
theorem C7_cancel_reported_as_error_witness :
    (runJob envCancelAt1 3).terminal
      = [CbTerminal.error "Download cancelled by user"] ∧
    (runJob envCancelAt1 3).fetched = List.range 1 ∧
    (runJob envCancelAt1 3).cleaned = true :=
  C7_cancel_reported_as_error envCancelAt1 3 1 (fun i => [i]) rfl rfl
    (by omega) (fun i => rfl) (fun i _ => rfl)

/-- Claim C1 (the ordering property is right, but `run` has a slip on the
direct-media path): for a source that is already a media playlist the
master branch never runs, the local `resolution` is unbound, and the first
successful segment's progress emission raises `NameError`, so the job ends
in `download_error` and no intermediate file is assembled even though every
download succeeded; on the master-resolved path the intermediate file is
exactly the concatenation of all segment bodies in ordinal order; and the
by-ordinal workspace assembly yields that same concatenation for every
completion order, because files are keyed by ordinal and read back in
ordinal order. -/
theorem C1_ordinal_concatenation :
    ((runJob envDirectMedia 1).terminal
        = [CbTerminal.error "NameError: name resolution is not defined"] ∧
      (runJob envDirectMedia 1).intermediate = none) ∧
    (∀ (env : Env) (total : Nat) (content : Nat → List Nat),
      env.parseOk = true → env.masterResolved = true → total ≠ 0 →
      (∀ i, env.runningAt i = true) → (∀ i, env.fetch i = some (content i)) →
      (runJob env total).intermediate = some (((List.range total).map content).flatten)) ∧
    (∀ (total : Nat) (content : Nat → List Nat) (order : List Nat),
      order.Perm (List.range total) →
      assembleFromWorkspace total (fsAfter order content) =
        some (((List.range total).map content).flatten)) := by
  refine ⟨⟨by decide, by decide⟩, ?_, ?_⟩
  · intro env total content hp hm h0 hrun hf
    have hloop := dlGo_allok env total content hm (List.range total) [] [] []
      (fun i _ => ⟨hrun i, hf i⟩)
    by_cases hc : env.convertOk = false
    · simp [runJob, hp, h0, hloop, hc]
    · by_cases ho : env.outputExists = false ∨ env.outputSize < 1000
      · simp [runJob, hp, h0, hloop, hc, ho]
      · simp [runJob, hp, h0, hloop, hc, ho]
  · intro total content order hperm
    unfold assembleFromWorkspace
    rw [mapM_eq_some_map _ content (List.range total)
      (fun i hi => lookup_fsAfter (hperm.mem_iff.mpr hi))]
    rfl

/-- Witness for `C1_ordinal_concatenation`: a three-segment master-resolved
job assembles `[0, 0, 1, 1, 2, 2]`, and writing the files in completion
order 2, 0, 1 assembles the same bytes. -/
theorem C1_ordinal_concatenation_witness :
    (runJob envMaster3 3).intermediate = some [0, 0, 1, 1, 2, 2] ∧
    assembleFromWorkspace 3 (fsAfter [2, 0, 1] content3) = some [0, 0, 1, 1, 2, 2] := by
  constructor
  · have h := C1_ordinal_concatenation.2.1 envMaster3 3 content3 rfl rfl
      (by omega) (fun i => rfl) (fun i => rfl)
    rw [h]
    decide
  · have h := C1_ordinal_concatenation.2.2 3 content3 [2, 0, 1] (by decide)
    rw [h]
    decide
